import Mathlib

set_option maxRecDepth 8192

/-!
# A verification development for the `bytecode` stack virtual machine

Shallow embedding of `src/interpreter.rs`: a stack-based bytecode virtual
machine with an operand stack of signed 32-bit cells, a flag register, and a
fetch-decode-execute loop.

Modelling conventions:
* Machine integers are `Nat`/`Int` with explicit wrap-around where the Rust
  code performs it.  `usize` arithmetic (the stack-top index, the instruction
  pointer) is carried out modulo `2 ^ 64`, and `i32` arithmetic wraps into
  `[-2^31, 2^31)`, i.e. Rust's two's-complement (release-profile) semantics —
  the behaviour the repository's own description of the stack-pointer
  wrap-around assumes.  An overflow-checked build would abort at exactly the
  inputs where the wrap is visible, which only reinforces every refutation
  proved below.
* Every Rust operation that can terminate the process — an out-of-bounds
  `Vec` index, an explicit stack-overflow diagnostic, an unsupported selector,
  the unimplemented-opcode arm — is modelled as `Option`/`StepResult.fatal`.
* `println!` output of `CompilerCall 1` is modelled by an `output` list
  accumulated in the interpreter state.
-/

/-- `2 ^ 64`, the modulus of Rust `usize` arithmetic. -/
def USIZE : Nat := 18446744073709551616

/-- Reinterpretation of a signed 32-bit value as its unsigned bit pattern
(Rust `bytemuck::cast : i32 -> u32`, also `as u32`). -/
def u32ofI32 (v : Int) : Nat := (v % 4294967296).toNat

/-- Reinterpretation of an unsigned 32-bit value as signed
(Rust `bytemuck::cast : u32 -> i32`). -/
def i32ofU32 (u : Nat) : Int :=
  if u < 2147483648 then (u : Int) else (u : Int) - 4294967296

/-- Rust `as u32 as i32` applied to a `usize` register value
(truncate to 32 bits, then reinterpret as signed). -/
def i32ofUsize (n : Nat) : Int := i32ofU32 (n % 4294967296)

/-- Rust `as u32 as usize` applied to an `i32` value
(reinterpret as unsigned 32-bit, then zero-extend). -/
def usizeOfI32 (v : Int) : Nat := u32ofI32 v

/-- Two's-complement wrap of an integer into the signed 32-bit range
`[-2^31, 2^31)`; models Rust release-profile `i32` `+`, `-`, `*`. -/
def wrap32 (x : Int) : Int := (x + 2147483648) % 4294967296 - 2147483648

/-- The flag register (`struct Flags` in the source, field for field). -/
structure Flags where
  not_zero : Bool
  less_then : Bool
  larger_then : Bool
  equals : Bool
  overflow : Bool
  underflow : Bool
  halted : Bool
  carry : Bool
  div_by_zero : Bool
deriving DecidableEq

/-- `Flags::new()`: every flag cleared. -/
def Flags.new : Flags :=
  ⟨false, false, false, false, false, false, false, false, false⟩

/-- The instruction set (`enum Instruction`, discriminants 0–31 in source
order). -/
inductive Instruction where
  | Nop
  | Hlt
  | I32Add
  | I32Sub
  | I32Mul
  | I32Div
  | Push
  | Pop
  | CompilerCall
  | Call
  | Ret
  | PushReg
  | PopReg
  | Store
  | Load
  | StoreRelative
  | LoadRelative
  | StackAdd
  | Deref
  | Lea
  | DerefAssign
  | DerefAssignRelative
  | Cmp
  | Jmp
  | Jz
  | Jnz
  | Greater
  | GreaterEqual
  | Lesser
  | LesserEqual
  | Equal
  | NotEqual
deriving DecidableEq

/-- `impl From<u8> for Instruction`: bytes 0–31 map to the fixed instruction
set, every other byte decodes leniently to `Nop` (the source's `_` arm). -/
def instructionFromU8 (val : Nat) : Instruction :=
  match val with
  | 0 => .Nop
  | 1 => .Hlt
  | 2 => .I32Add
  | 3 => .I32Sub
  | 4 => .I32Mul
  | 5 => .I32Div
  | 6 => .Push
  | 7 => .Pop
  | 8 => .CompilerCall
  | 9 => .Call
  | 10 => .Ret
  | 11 => .PushReg
  | 12 => .PopReg
  | 13 => .Store
  | 14 => .Load
  | 15 => .StoreRelative
  | 16 => .LoadRelative
  | 17 => .StackAdd
  | 18 => .Deref
  | 19 => .Lea
  | 20 => .DerefAssign
  | 21 => .DerefAssignRelative
  | 22 => .Cmp
  | 23 => .Jmp
  | 24 => .Jz
  | 25 => .Jnz
  | 26 => .Greater
  | 27 => .GreaterEqual
  | 28 => .Lesser
  | 29 => .LesserEqual
  | 30 => .Equal
  | 31 => .NotEqual
  | _ => .Nop

/-- The operand stack (`struct Stack`): a fixed array of `i32` cells plus a
top-of-stack index (`ptr : usize`). -/
structure Stack where
  stack : List Int
  ptr : Nat
deriving DecidableEq

/-- `Stack::new(size)`: `size` zeroed cells, top index `size - 1`
(`usize` subtraction, hence wrapping for `size = 0`). -/
def Stack.new (size : Nat) : Stack :=
  ⟨List.replicate size 0, (size + USIZE - 1) % USIZE⟩

/-- `Stack::get`: `self.stack[index]`; an out-of-range index is a fatal
array-bounds violation (`none`). -/
def Stack.get (s : Stack) (index : Nat) : Option Int := s.stack[index]?

/-- `Stack::set`: `self.stack[index] = val`; out of range is fatal. -/
def Stack.set (s : Stack) (index : Nat) (val : Int) : Option Stack :=
  if index < s.stack.length then some ⟨s.stack.set index val, s.ptr⟩ else none

/-- `Stack::push`: if the top index is at or beyond the array length
(capacity exceeded — including a previously wrapped index) the explicit
overflow diagnostic aborts the run; otherwise write at the top index and
decrement it (wrapping `usize` subtraction). -/
def Stack.push (s : Stack) (val : Int) : Option Stack :=
  if s.stack.length ≤ s.ptr then none
  else some ⟨s.stack.set s.ptr val, (s.ptr + USIZE - 1) % USIZE⟩

/-- `Stack::pop`: increment the top index (wrapping), then read the cell at
the new index; the read is a fatal array-bounds violation when the new index
is out of range.  There is no explicit underflow check. -/
def Stack.pop (s : Stack) : Option (Int × Stack) :=
  match s.stack[(s.ptr + 1) % USIZE]? with
  | some v => some (v, ⟨s.stack, (s.ptr + 1) % USIZE⟩)
  | none => none

/-- The instruction buffer (`struct Instructions`), an ordered byte sequence.
Bytes are `Nat`s kept below 256 by the append operations' `as u8` casts. -/
structure Instructions where
  instructions : List Nat
deriving DecidableEq

/-- `Instructions::len`. -/
def Instructions.len (b : Instructions) : Nat := b.instructions.length

/-- `Instructions::push_u8_operand`: append one byte (the caller performs the
`as u8` truncation, exactly as the Rust call sites do). -/
def Instructions.push_u8_operand (b : Instructions) (val : Nat) : Instructions :=
  ⟨b.instructions ++ [val]⟩

/-- `Instructions::push_u16_operand`: low byte (`val as u8`) first, then high
byte (`(val >> 8) as u8`) — little-endian. -/
def Instructions.push_u16_operand (b : Instructions) (val : Nat) : Instructions :=
  (b.push_u8_operand (val % 256)).push_u8_operand (val / 256 % 256)

/-- `Instructions::push_u32_operand`: low 16-bit half (`val as u16`) first,
then high half (`(val >> 16) as u16`). -/
def Instructions.push_u32_operand (b : Instructions) (val : Nat) : Instructions :=
  (b.push_u16_operand (val % 65536)).push_u16_operand (val / 65536 % 65536)

/-- `Instructions::push_i32_operand`: append the raw unsigned bit pattern of
the signed value (`bytemuck::cast`). -/
def Instructions.push_i32_operand (b : Instructions) (val : Int) : Instructions :=
  b.push_u32_operand (u32ofI32 val)

/-- `Instructions::get_u8`: `self.instructions[index]`; out of bounds is a
fatal array-bounds violation. -/
def Instructions.get_u8 (b : Instructions) (index : Nat) : Option Nat :=
  b.instructions[index]?

/-- `Instructions::get_u16`: `get_u8(index) + (get_u8(index+1) << 8)`. -/
def Instructions.get_u16 (b : Instructions) (index : Nat) : Option Nat :=
  match b.get_u8 index, b.get_u8 (index + 1) with
  | some lo, some hi => some (lo + hi * 256)
  | _, _ => none

/-- `Instructions::get_u32`: `get_u16(index) + (get_u16(index+2) << 16)`. -/
def Instructions.get_u32 (b : Instructions) (index : Nat) : Option Nat :=
  match b.get_u16 index, b.get_u16 (index + 2) with
  | some lo, some hi => some (lo + hi * 65536)
  | _, _ => none

/-- `Instructions::get_i32`: reinterpret the decoded `u32` as signed
(`bytemuck::cast`). -/
def Instructions.get_i32 (b : Instructions) (index : Nat) : Option Int :=
  (b.get_u32 index).map i32ofU32

/-- The fixed opcode subset for which the disassembler (`impl Display for
Instructions`) prints a decoded 4-byte signed operand and skips 4 extra
bytes. -/
def disasmHasI32 : Instruction → Bool
  | .StackAdd | .PushReg | .Call | .Push | .CompilerCall | .StoreRelative
  | .LoadRelative | .DerefAssign | .DerefAssignRelative | .Lea | .PopReg
  | .Store | .Load | .Jmp | .Jz | .Jnz => true
  | _ => false

/-- The byte offset at which the disassembler's loop continues after the line
for the instruction at `index`: `index += 4` inside the operand arm, then
`index += 1` at the end of the loop body. -/
def disasmNext (code : List Nat) (index : Nat) : Nat :=
  index + (if disasmHasI32 (instructionFromU8 (code.getD index 0)) then 4 else 0) + 1

/-- The interpreter (`struct Interpreter`): operand stack, instruction
buffer, instruction pointer, frame pointer, flag register — plus the list of
values emitted on the host output channel by `CompilerCall 1` (`println!`). -/
structure Interpreter where
  stack : Stack
  instructions : Instructions
  ptr : Nat
  frame_ptr : Nat
  flags : Flags
  output : List Int
deriving DecidableEq

/-- `Interpreter::new`: stack of capacity 1024, both pointers zero, flags
clear. -/
def Interpreter.new (instructions : List Nat) : Interpreter :=
  ⟨Stack.new 1024, ⟨instructions⟩, 0, 0, Flags.new, []⟩

/-- `Interpreter::next_instruction`: an instruction pointer at or past the
end of the buffer is an implicit `Hlt` (without advancing); otherwise decode
the byte at the instruction pointer and advance past it. -/
def Interpreter.next_instruction (s : Interpreter) : Instruction × Interpreter :=
  if s.instructions.len ≤ s.ptr then (Instruction.Hlt, s)
  else (instructionFromU8 (s.instructions.instructions.getD s.ptr 0),
        { s with ptr := s.ptr + 1 })

/-- `Interpreter::next_i32`: decode the 4 little-endian operand bytes at the
instruction pointer and advance past them; reading past the end of the
buffer is fatal. -/
def Interpreter.next_i32 (s : Interpreter) : Option (Int × Interpreter) :=
  match s.instructions.get_u32 s.ptr with
  | some u => some (i32ofU32 u, { s with ptr := s.ptr + 4 })
  | none => none

/-- `Interpreter::next_u8`: consume one operand byte. -/
def Interpreter.next_u8 (s : Interpreter) : Option (Nat × Interpreter) :=
  match s.instructions.get_u8 s.ptr with
  | some v => some (v, { s with ptr := s.ptr + 1 })
  | none => none

/-- Result of one iteration of `Interpreter::run`'s loop: continue, return
cleanly (`Hlt`), or abort the process (any `panic!`, including out-of-bounds
indexing). -/
inductive StepResult where
  | cont (s : Interpreter)
  | halt (s : Interpreter)
  | fatal
deriving DecidableEq

/-- The execute phase of `Interpreter::run`: the semantics of one decoded
instruction, acting on the state left by the fetch (`next_instruction`).
Each arm transcribes the corresponding `match` arm of the source. -/
def exec (ins : Instruction) (s : Interpreter) : StepResult :=
  match ins with
  | .Nop => .cont s
  | .Hlt => .halt s
  | .Lea =>
    match s.next_i32 with
    | none => .fatal
    | some (off, s) =>
      match s.stack.push (wrap32 (off + i32ofUsize s.frame_ptr)) with
      | none => .fatal
      | some st => .cont { s with stack := st }
  | .I32Add =>
    match s.stack.pop with
    | none => .fatal
    | some (a, st1) =>
      match st1.pop with
      | none => .fatal
      | some (b, st2) =>
        match st2.push (wrap32 (a + b)) with
        | none => .fatal
        | some st3 => .cont { s with stack := st3 }
  | .I32Sub =>
    match s.stack.pop with
    | none => .fatal
    | some (a, st1) =>
      match st1.pop with
      | none => .fatal
      | some (b, st2) =>
        match st2.push (wrap32 (a - b)) with
        | none => .fatal
        | some st3 => .cont { s with stack := st3 }
  | .I32Mul =>
    match s.stack.pop with
    | none => .fatal
    | some (a, st1) =>
      match st1.pop with
      | none => .fatal
      | some (b, st2) =>
        match st2.push (wrap32 (a * b)) with
        | none => .fatal
        | some st3 => .cont { s with stack := st3 }
  | .I32Div =>
    match s.stack.pop with
    | none => .fatal
    | some (a, st1) =>
      match st1.pop with
      | none => .fatal
      | some (b, st2) =>
        if b = 0 then .fatal
        else if a = -2147483648 ∧ b = -1 then .fatal
        else
          match st2.push (Int.tdiv a b) with
          | none => .fatal
          | some st3 => .cont { s with stack := st3 }
  | .Push =>
    match s.next_i32 with
    | none => .fatal
    | some (val, s) =>
      match s.stack.push val with
      | none => .fatal
      | some st => .cont { s with stack := st }
  | .Pop =>
    match s.stack.pop with
    | none => .fatal
    | some (_, st) => .cont { s with stack := st }
  | .CompilerCall =>
    match s.next_i32 with
    | none => .fatal
    | some (function, s) =>
      if function = 0 then .cont s
      else if function = 1 then
        match s.stack.get ((s.stack.ptr + 1) % USIZE) with
        | none => .fatal
        | some v => .cont { s with output := s.output ++ [v] }
      else .fatal
  | .Call =>
    match s.next_i32 with
    | none => .fatal
    | some (destination, s) =>
      match s.stack.push (i32ofUsize s.ptr) with
      | none => .fatal
      | some st1 =>
        match st1.push (i32ofUsize s.frame_ptr) with
        | none => .fatal
        | some st2 =>
          .cont { s with stack := st2, ptr := usizeOfI32 destination,
                         frame_ptr := st2.ptr }
  | .Ret =>
    match s.stack.pop with
    | none => .fatal
    | some (fp, st1) =>
      match st1.pop with
      | none => .fatal
      | some (destination, st2) =>
        .cont { s with stack := st2, frame_ptr := usizeOfI32 fp,
                       ptr := usizeOfI32 destination }
  | .PopReg =>
    match s.next_u8 with
    | none => .fatal
    | some (dst, s) =>
      match s.stack.pop with
      | none => .fatal
      | some (val, st) =>
        match dst with
        | 0 => .cont { s with stack := st }
        | 1 => .cont { s with stack := st, ptr := usizeOfI32 val }
        | 2 => .cont { s with stack := { st with ptr := usizeOfI32 val } }
        | 3 => .cont { s with stack := st, frame_ptr := usizeOfI32 val }
        | _ => .fatal
  | .PushReg =>
    match s.next_u8 with
    | none => .fatal
    | some (src, s) =>
      match src with
      | 0 => .cont s
      | 1 =>
        match s.stack.push (i32ofUsize s.ptr) with
        | none => .fatal
        | some st => .cont { s with stack := st }
      | 2 =>
        match s.stack.push (i32ofUsize s.stack.ptr) with
        | none => .fatal
        | some st => .cont { s with stack := st }
      | 3 =>
        match s.stack.push (i32ofUsize s.frame_ptr) with
        | none => .fatal
        | some st => .cont { s with stack := st }
      | _ => .fatal
  | .Load =>
    match s.next_i32 with
    | none => .fatal
    | some (location, s) =>
      match s.stack.get (usizeOfI32 location) with
      | none => .fatal
      | some val =>
        match s.stack.push val with
        | none => .fatal
        | some st => .cont { s with stack := st }
  | .Store =>
    match s.next_i32 with
    | none => .fatal
    | some (location, s) =>
      match s.stack.pop with
      | none => .fatal
      | some (val, st1) =>
        match st1.set (usizeOfI32 location) val with
        | none => .fatal
        | some st2 => .cont { s with stack := st2 }
  | .LoadRelative =>
    match s.next_i32 with
    | none => .fatal
    | some (off, s) =>
      match s.stack.get (usizeOfI32 (wrap32 (i32ofUsize s.frame_ptr + off))) with
      | none => .fatal
      | some val =>
        match s.stack.push val with
        | none => .fatal
        | some st => .cont { s with stack := st }
  | .StoreRelative =>
    match s.next_i32 with
    | none => .fatal
    | some (off, s) =>
      match s.stack.pop with
      | none => .fatal
      | some (val, st1) =>
        match st1.set (usizeOfI32 (wrap32 (i32ofUsize s.frame_ptr + off))) val with
        | none => .fatal
        | some st2 => .cont { s with stack := st2 }
  | .StackAdd =>
    match s.next_i32 with
    | none => .fatal
    | some (off, s) =>
      .cont { s with stack :=
        { s.stack with ptr := usizeOfI32 (wrap32 (i32ofUsize s.stack.ptr + off)) } }
  | .DerefAssignRelative =>
    match s.next_i32 with
    | none => .fatal
    | some (off, s) =>
      match s.stack.get (usizeOfI32 (wrap32 (i32ofUsize s.frame_ptr + off))) with
      | none => .fatal
      | some location =>
        match s.stack.pop with
        | none => .fatal
        | some (val, st1) =>
          match st1.set (usizeOfI32 location) val with
          | none => .fatal
          | some st2 => .cont { s with stack := st2 }
  | .DerefAssign =>
    match s.next_i32 with
    | none => .fatal
    | some (p, s) =>
      match s.stack.get (usizeOfI32 p) with
      | none => .fatal
      | some location =>
        match s.stack.pop with
        | none => .fatal
        | some (val, st1) =>
          match st1.set (usizeOfI32 location) val with
          | none => .fatal
          | some st2 => .cont { s with stack := st2 }
  | .Deref =>
    match s.stack.pop with
    | none => .fatal
    | some (p, st1) =>
      match st1.get (usizeOfI32 p) with
      | none => .fatal
      | some val =>
        match st1.push val with
        | none => .fatal
        | some st2 => .cont { s with stack := st2 }
  | .Cmp =>
    match s.stack.pop with
    | none => .fatal
    | some (lhs, st1) =>
      match st1.pop with
      | none => .fatal
      | some (rhs, st2) =>
        let diff := wrap32 (lhs - rhs)
        if diff < 0 then
          .cont { s with stack := st2, flags :=
            { s.flags with less_then := true, larger_then := false,
                           not_zero := true, equals := false } }
        else if diff > 0 then
          .cont { s with stack := st2, flags :=
            { s.flags with less_then := false, larger_then := true,
                           not_zero := true, equals := false } }
        else
          .cont { s with stack := st2, flags :=
            { s.flags with less_then := false, larger_then := false,
                           not_zero := false, equals := true } }
  | .Jmp =>
    match s.next_i32 with
    | none => .fatal
    | some (dst, s) => .cont { s with ptr := usizeOfI32 dst }
  | .Jz =>
    match s.next_i32 with
    | none => .fatal
    | some (dst, s) =>
      match s.stack.pop with
      | none => .fatal
      | some (val, st) =>
        if val = 0 then .cont { s with stack := st, ptr := usizeOfI32 dst }
        else .cont { s with stack := st }
  | .Greater =>
    match s.stack.pop with
    | none => .fatal
    | some (a, st1) =>
      match st1.pop with
      | none => .fatal
      | some (b, st2) =>
        match st2.push (if a > b then 1 else 0) with
        | none => .fatal
        | some st3 => .cont { s with stack := st3 }
  | .GreaterEqual =>
    match s.stack.pop with
    | none => .fatal
    | some (a, st1) =>
      match st1.pop with
      | none => .fatal
      | some (b, st2) =>
        match st2.push (if a ≥ b then 1 else 0) with
        | none => .fatal
        | some st3 => .cont { s with stack := st3 }
  | .Lesser =>
    match s.stack.pop with
    | none => .fatal
    | some (a, st1) =>
      match st1.pop with
      | none => .fatal
      | some (b, st2) =>
        match st2.push (if a < b then 1 else 0) with
        | none => .fatal
        | some st3 => .cont { s with stack := st3 }
  | .LesserEqual =>
    match s.stack.pop with
    | none => .fatal
    | some (a, st1) =>
      match st1.pop with
      | none => .fatal
      | some (b, st2) =>
        match st2.push (if a ≤ b then 1 else 0) with
        | none => .fatal
        | some st3 => .cont { s with stack := st3 }
  | .Equal =>
    match s.stack.pop with
    | none => .fatal
    | some (a, st1) =>
      match st1.pop with
      | none => .fatal
      | some (b, st2) =>
        match st2.push (if a = b then 1 else 0) with
        | none => .fatal
        | some st3 => .cont { s with stack := st3 }
  | .NotEqual =>
    match s.stack.pop with
    | none => .fatal
    | some (a, st1) =>
      match st1.pop with
      | none => .fatal
      | some (b, st2) =>
        match st2.push (if a ≠ b then 1 else 0) with
        | none => .fatal
        | some st3 => .cont { s with stack := st3 }
  | .Jnz => .fatal

/-- One iteration of `Interpreter::run`'s loop: fetch and decode the opcode
at the instruction pointer, then execute it. -/
def step (s : Interpreter) : StepResult :=
  exec s.next_instruction.1 s.next_instruction.2

/-- `Interpreter::run` with explicit fuel: iterate `step` until a clean halt
(`some`), a fatal abort, or fuel exhaustion (`none`). -/
def run : Nat → Interpreter → Option Interpreter
  | 0, _ => none
  | fuel + 1, s =>
    match step s with
    | .cont s1 => run fuel s1
    | .halt s1 => some s1
    | .fatal => none

/-- The number of operand bytes the interpreter's execute phase consumes for
each opcode (4 for the i32-immediate instructions, 1 for the register
selector of `PushReg`/`PopReg`, 0 otherwise; `Jnz` aborts before reading any
operand). -/
def opWidth : Instruction → Nat
  | .Push | .CompilerCall | .Call | .Load | .Store | .LoadRelative
  | .StoreRelative | .StackAdd | .Lea | .DerefAssign | .DerefAssignRelative
  | .Jmp | .Jz => 4
  | .PushReg | .PopReg => 1
  | _ => 0

/-- The sequence of instruction-start offsets obtained by parsing the buffer
sequentially from `p` with the interpreter's operand widths; the final
element is the first position at or past the end of the buffer. -/
def starts (code : List Nat) (p : Nat) : List Nat :=
  if h : p < code.length then
    p :: starts code (p + 1 + opWidth (instructionFromU8 (code.getD p 0)))
  else [p]
termination_by code.length - p
decreasing_by omega

/-- Iterated `Stack::push`, first element pushed first; `none` as soon as one
push aborts. -/
def pushMany (s : Stack) : List Int → Option Stack
  | [] => some s
  | v :: vs =>
    match s.push v with
    | none => none
    | some s1 => pushMany s1 vs

/-! ## General lemmas about the embedding -/

theorem i32_bits_roundtrip (v : Int) (h1 : -2147483648 ≤ v)
    (h2 : v < 2147483648) : i32ofU32 (u32ofI32 v) = v := by
  unfold i32ofU32 u32ofI32
  split <;> omega

theorem usize_bits_roundtrip (n : Nat) (h : n < 4294967296) :
    usizeOfI32 (i32ofUsize n) = n := by
  unfold usizeOfI32 i32ofUsize i32ofU32 u32ofI32
  rw [Nat.mod_eq_of_lt h]
  split <;> omega

theorem next_instruction_eq (s : Interpreter) (b : Nat)
    (hb : s.instructions.instructions[s.ptr]? = some b) :
    s.next_instruction = (instructionFromU8 b, { s with ptr := s.ptr + 1 }) := by
  have hlt : s.ptr < s.instructions.instructions.length := by
    by_contra h
    rw [List.getElem?_eq_none (by omega)] at hb
    cases hb
  unfold Interpreter.next_instruction Instructions.len
  rw [if_neg (by omega), List.getD_eq_getElem?_getD, hb]
  rfl

theorem step_eq (s : Interpreter) (b : Nat)
    (hb : s.instructions.instructions[s.ptr]? = some b) :
    step s = exec (instructionFromU8 b) { s with ptr := s.ptr + 1 } := by
  unfold step
  rw [next_instruction_eq s b hb]

theorem next_i32_eq (s : Interpreter) (u : Nat)
    (hu : s.instructions.get_u32 s.ptr = some u) :
    s.next_i32 = some (i32ofU32 u, { s with ptr := s.ptr + 4 }) := by
  unfold Interpreter.next_i32
  rw [hu]

theorem next_u8_eq (s : Interpreter) (v : Nat)
    (hv : s.instructions.get_u8 s.ptr = some v) :
    s.next_u8 = some (v, { s with ptr := s.ptr + 1 }) := by
  unfold Interpreter.next_u8
  rw [hv]

theorem usize_of_i32ofU32 (u : Nat) (h : u < 4294967296) :
    usizeOfI32 (i32ofU32 u) = u := by
  unfold usizeOfI32 u32ofI32 i32ofU32
  split <;> omega

theorem pop_some_inv (s : Stack) (v : Int) (t : Stack)
    (h : s.pop = some (v, t)) :
    t.stack = s.stack ∧ t.ptr = (s.ptr + 1) % USIZE ∧
    s.stack[(s.ptr + 1) % USIZE]? = some v := by
  unfold Stack.pop at h
  cases hg : s.stack[(s.ptr + 1) % USIZE]? with
  | none => rw [hg] at h; cases h
  | some w =>
    rw [hg] at h
    simp only [Option.some.injEq, Prod.mk.injEq] at h
    obtain ⟨hw, ht⟩ := h
    subst hw
    subst ht
    exact ⟨rfl, rfl, rfl⟩

theorem push_some_inv (s : Stack) (v : Int) (t : Stack)
    (h : s.push v = some t) :
    s.ptr < s.stack.length ∧
    t = ⟨s.stack.set s.ptr v, (s.ptr + USIZE - 1) % USIZE⟩ := by
  unfold Stack.push at h
  split at h
  · cases h
  · injection h with h2
    exact ⟨by omega, h2.symm⟩

theorem next_i32_some_inv (s : Interpreter) (v : Int) (t : Interpreter)
    (h : s.next_i32 = some (v, t)) : t = { s with ptr := s.ptr + 4 } := by
  unfold Interpreter.next_i32 at h
  cases hg : s.instructions.get_u32 s.ptr with
  | none => rw [hg] at h; cases h
  | some u =>
    rw [hg] at h
    simp only [Option.some.injEq, Prod.mk.injEq] at h
    exact h.2.symm

theorem next_u8_some_inv (s : Interpreter) (v : Nat) (t : Interpreter)
    (h : s.next_u8 = some (v, t)) : t = { s with ptr := s.ptr + 1 } := by
  unfold Interpreter.next_u8 at h
  cases hg : s.instructions.get_u8 s.ptr with
  | none => rw [hg] at h; cases h
  | some u =>
    rw [hg] at h
    simp only [Option.some.injEq, Prod.mk.injEq] at h
    exact h.2.symm

/-- Executing any instruction other than the five control-transfer ones
(`Call`, `Ret`, `PopReg`, `Jmp`, `Jz`) moves the instruction pointer exactly
past the opcode's operand bytes. -/
theorem exec_noncontrol_ptr (i : Instruction) (t s' : Interpreter)
    (hni : i ≠ .Call ∧ i ≠ .Ret ∧ i ≠ .PopReg ∧ i ≠ .Jmp ∧ i ≠ .Jz)
    (h : exec i t = .cont s') : s'.ptr = t.ptr + opWidth i := by
  cases i <;>
    first
    | exact absurd rfl hni.1
    | exact absurd rfl hni.2.1
    | exact absurd rfl hni.2.2.1
    | exact absurd rfl hni.2.2.2.1
    | exact absurd rfl hni.2.2.2.2
    | (simp only [exec] at h
       repeat
         first
         | exact StepResult.noConfusion h
         | (injection h with h2; subst h2; rfl)
         | (rename_i heq
            first
            | (obtain rfl := next_i32_some_inv _ _ _ heq)
            | (obtain rfl := next_u8_some_inv _ _ _ heq))
         | split at h)

theorem starts_self_mem (code : List Nat) (p : Nat) : p ∈ starts code p := by
  rw [starts]
  split
  · exact List.mem_cons_self _ _
  · exact List.mem_singleton.mpr rfl

theorem starts_next_mem (code : List Nat) (q : Nat) :
    ∀ p, p ∈ starts code q → p < code.length →
      p + 1 + opWidth (instructionFromU8 (code.getD p 0)) ∈ starts code q := by
  refine starts.induct code
    (fun q => ∀ p, p ∈ starts code q → p < code.length →
      p + 1 + opWidth (instructionFromU8 (code.getD p 0)) ∈ starts code q)
    ?_ ?_ q
  · intro x hx ih p hp hplt
    rw [starts, dif_pos hx] at hp
    rcases List.mem_cons.mp hp with rfl | hp2
    · rw [starts, dif_pos hx]
      exact List.mem_cons_of_mem _ (starts_self_mem code _)
    · rw [starts, dif_pos hx]
      exact List.mem_cons_of_mem _ (ih p hp2 hplt)
  · intro x hx p hp hplt
    rw [starts, dif_neg hx] at hp
    have := List.mem_singleton.mp hp
    subst this
    exact absurd hplt hx

theorem drop_set_of_lt (l : List Int) (n : Nat) (v : Int) (h : n < l.length) :
    (l.set n v).drop n = v :: l.drop (n + 1) := by
  rw [List.set_eq_take_cons_drop _ h, List.drop_append_eq_append_drop]
  simp [List.length_take, Nat.min_eq_left (Nat.le_of_lt h)]

theorem push_u32_bytes (b : Instructions) (u : Nat) :
    (b.push_u32_operand u).instructions
      = b.instructions ++
        [u % 65536 % 256, u % 65536 / 256 % 256,
         u / 65536 % 65536 % 256, u / 65536 % 65536 / 256 % 256] := by
  simp [Instructions.push_u32_operand, Instructions.push_u16_operand,
        Instructions.push_u8_operand]

/-! ## Claim theorems -/

/-- C4.  Encode/decode round trip: for every signed 32-bit value `v` and every
instruction buffer, appending `v` with `push_i32_operand` and then decoding
with `get_i32` at the byte offset where `v` was written returns exactly `v`,
over the full signed range. -/
theorem push_i32_get_i32_roundtrip (b : Instructions) (v : Int)
    (h1 : -2147483648 ≤ v) (h2 : v < 2147483648) :
    (b.push_i32_operand v).get_i32 b.len = some v := by
  have hu : u32ofI32 v < 4294967296 := by
    unfold u32ofI32
    omega
  have hb : (b.push_i32_operand v).instructions
      = b.instructions ++
        [u32ofI32 v % 65536 % 256, u32ofI32 v % 65536 / 256 % 256,
         u32ofI32 v / 65536 % 65536 % 256,
         u32ofI32 v / 65536 % 65536 / 256 % 256] :=
    push_u32_bytes b (u32ofI32 v)
  have hlen : b.len = b.instructions.length := rfl
  have key : ∀ k, (b.push_i32_operand v).get_u8 (b.len + k)
      = [u32ofI32 v % 65536 % 256, u32ofI32 v % 65536 / 256 % 256,
         u32ofI32 v / 65536 % 65536 % 256,
         u32ofI32 v / 65536 % 65536 / 256 % 256][k]? := by
    intro k
    unfold Instructions.get_u8
    rw [hb, List.getElem?_append_right (by omega)]
    congr 1
    omega
  have h0 : (b.push_i32_operand v).get_u8 (b.len + 0) = some (u32ofI32 v % 65536 % 256) := by
    rw [key]
    simp
  have hx1 : (b.push_i32_operand v).get_u8 (b.len + 1) = some (u32ofI32 v % 65536 / 256 % 256) := by
    rw [key]
    simp
  have hx2 : (b.push_i32_operand v).get_u8 (b.len + 2) = some (u32ofI32 v / 65536 % 65536 % 256) := by
    rw [key]
    simp
  have hx3 : (b.push_i32_operand v).get_u8 (b.len + 3) = some (u32ofI32 v / 65536 % 65536 / 256 % 256) := by
    rw [key]
    simp
  have h16a : (b.push_i32_operand v).get_u16 (b.len + 0)
      = some (u32ofI32 v % 65536 % 256 + u32ofI32 v % 65536 / 256 % 256 * 256) := by
    unfold Instructions.get_u16
    rw [show b.len + 0 + 1 = b.len + 1 by omega, h0, hx1]
  have h16b : (b.push_i32_operand v).get_u16 (b.len + 2)
      = some (u32ofI32 v / 65536 % 65536 % 256
              + u32ofI32 v / 65536 % 65536 / 256 % 256 * 256) := by
    unfold Instructions.get_u16
    rw [show b.len + 2 + 1 = b.len + 3 by omega, hx2, hx3]
  have h32 : (b.push_i32_operand v).get_u32 (b.len + 0) = some (u32ofI32 v) := by
    unfold Instructions.get_u32
    rw [show b.len + 0 + 2 = b.len + 2 by omega, h16a, h16b]
    simp only [Option.some.injEq]
    omega
  have : (b.push_i32_operand v).get_i32 (b.len + 0) = some v := by
    unfold Instructions.get_i32
    rw [h32]
    show some (i32ofU32 (u32ofI32 v)) = some v
    rw [i32_bits_roundtrip v h1 h2]
  rw [show b.len = b.len + 0 by omega]
  exact this

/-- Witness for C4 at the most negative value. -/
theorem push_i32_get_i32_roundtrip_witness :
    (Instructions.push_i32_operand ⟨[7]⟩ (-2147483648)).get_i32
      (Instructions.len ⟨[7]⟩) = some (-2147483648) :=
  push_i32_get_i32_roundtrip ⟨[7]⟩ (-2147483648) (by norm_num) (by norm_num)

theorem pushMany_fills (vs : List Int) : ∀ (arr : List Int) (p : Nat),
    p < arr.length → arr.length < USIZE → vs.length = p + 1 →
    pushMany ⟨arr, p⟩ vs = some ⟨vs.reverse ++ arr.drop (p + 1), USIZE - 1⟩ := by
  induction vs with
  | nil =>
    intro arr p hp hlt hlen
    simp at hlen
  | cons v vs ih =>
    intro arr p hp hlt hlen
    have hlen2 : vs.length = p := by
      simp only [List.length_cons] at hlen
      omega
    unfold pushMany Stack.push
    dsimp only
    rw [if_neg (by omega)]
    by_cases hp0 : p = 0
    · subst hp0
      have hvs : vs = [] := List.length_eq_zero.mp (by omega)
      subst hvs
      unfold pushMany
      cases arr with
      | nil => simp at hp
      | cons a t =>
        have hmod : (0 + USIZE - 1) % USIZE = USIZE - 1 := by
          simp only [USIZE]
        rw [hmod]
        rfl
    · have hdec : (p + USIZE - 1) % USIZE = p - 1 := by
        simp only [USIZE] at *
        omega
      rw [hdec]
      show pushMany ⟨arr.set p v, p - 1⟩ vs = _
      have hset : p - 1 < (arr.set p v).length := by
        simp only [List.length_set]
        omega
      have := ih (arr.set p v) (p - 1) hset
        (by simp only [List.length_set]; omega) (by omega)
      rw [this]
      have hp1 : p - 1 + 1 = p := by omega
      rw [hp1, drop_set_of_lt arr p v hp]
      simp

/-- C5.  Pushing `N + 1` values onto a freshly constructed stack of capacity
`N` accepts the first `N` values (each written at the current top index,
which is then decremented — so the array ends up holding them in reverse,
with the top index wrapped past zero) and the `(N+1)`-th push aborts the run
with the fatal overflow diagnostic (`none`). -/
theorem stack_overflow_on_capacity_exceeded (N : Nat) (vs : List Int)
    (h1 : 1 ≤ N) (hN : N < USIZE) (hlen : vs.length = N) :
    pushMany (Stack.new N) vs = some ⟨vs.reverse, USIZE - 1⟩ ∧
    ∀ v : Int, Stack.push ⟨vs.reverse, USIZE - 1⟩ v = none := by
  constructor
  · have hnew : Stack.new N = ⟨List.replicate N 0, N - 1⟩ := by
      unfold Stack.new
      rw [Stack.mk.injEq]
      refine ⟨rfl, ?_⟩
      simp only [USIZE] at hN ⊢
      omega
    rw [hnew]
    have := pushMany_fills vs (List.replicate N 0) (N - 1)
      (by simp only [List.length_replicate]; omega)
      (by simp only [List.length_replicate]; exact hN) (by omega)
    rw [this]
    have : (List.replicate N (0 : Int)).drop (N - 1 + 1) = [] := by
      apply List.drop_eq_nil_of_le
      simp only [List.length_replicate]
      omega
    rw [this]
    simp
  · intro v
    have hc : (vs.reverse.length ≤ USIZE - 1) := by
      rw [List.length_reverse, hlen]
      simp only [USIZE] at hN ⊢
      omega
    unfold Stack.push
    dsimp only
    rw [if_pos hc]

/-- Witness for C5 at capacity 2. -/
theorem stack_overflow_on_capacity_exceeded_witness :
    pushMany (Stack.new 2) [5, 6] = some ⟨List.reverse [5, 6], USIZE - 1⟩ ∧
    Stack.push ⟨List.reverse [5, 6], USIZE - 1⟩ 7 = none := by
  have h := stack_overflow_on_capacity_exceeded 2 [5, 6] (by norm_num)
    (by norm_num [USIZE]) rfl
  exact ⟨h.1, h.2 7⟩

/-- C8, counterexample.  Popping from a freshly constructed stack does *not*
return the value at the incremented top index: that index equals the
capacity, the read is out of bounds, and the run aborts (`none`), contrary to
the claim that no abort happens. -/
theorem pop_fresh_stack_counterexample :
    (Stack.new 4).ptr = 3 ∧ (Stack.new 4).stack.length = 4 ∧
    Stack.pop (Stack.new 4) = none := by
  refine ⟨by decide, by decide, ?_⟩
  decide

/-- C8, amended.  `pop` on a freshly constructed stack of any capacity `N ≥ 1`
is not guarded by an explicit underflow check: the top index is incremented
past its initial value — to the capacity `N` itself — and the read at that
new index is a fatal array-bounds violation that aborts the run (rather than
returning a value from unused memory). -/
theorem pop_fresh_stack_aborts (N : Nat) (h1 : 1 ≤ N) (hN : N < USIZE) :
    ((Stack.new N).ptr + 1) % USIZE = N ∧ Stack.pop (Stack.new N) = none := by
  have hptr : (Stack.new N).ptr = N - 1 := by
    unfold Stack.new
    simp only [USIZE] at *
    omega
  have hinc : ((Stack.new N).ptr + 1) % USIZE = N := by
    rw [hptr]
    simp only [USIZE] at *
    omega
  refine ⟨hinc, ?_⟩
  unfold Stack.pop
  rw [hinc]
  have : (Stack.new N).stack[N]? = none := by
    apply List.getElem?_eq_none
    simp [Stack.new]
  rw [this]

/-- Witness for the amended C8 at capacity 4. -/
theorem pop_fresh_stack_aborts_witness :
    ((Stack.new 4).ptr + 1) % USIZE = 4 ∧ Stack.pop (Stack.new 4) = none :=
  pop_fresh_stack_aborts 4 (by norm_num) (by norm_num [USIZE])

/-- C2, counterexample.  `Cmp` with `lhs` the minimum i32 and `rhs = 1`: the
mathematical difference `lhs - rhs` is negative, but the i32 subtraction
wraps to `2^31 - 1 > 0`, so the code sets `greater_than` (and clears
`less_than`), refuting "less_than is set iff lhs - rhs is negative". -/
theorem cmp_overflow_counterexample :
    ((-2147483648 : Int) - 1 < 0) ∧
    step ⟨⟨[0, 0, -2147483648, 1], 1⟩, ⟨[22]⟩, 0, 0, Flags.new, []⟩ =
      .cont ⟨⟨[0, 0, -2147483648, 1], 3⟩, ⟨[22]⟩, 1, 0,
             ⟨true, false, true, false, false, false, false, false, false⟩, []⟩ :=
  ⟨by norm_num, by decide⟩

/-- C2, amended.  After every execution of `Cmp` on stack values `lhs`
(popped first) and `rhs` (popped second): `less_than` is set iff the wrapped
32-bit difference `wrap32 (lhs - rhs)` is negative (equal to the sign of
`lhs - rhs` whenever that difference is i32-representable), `greater_than`
iff it is positive, `equals` iff it is zero; exactly one of the three is set,
`not_zero` is the complement of `equals`, and nothing is pushed (the stack is
exactly the two-pops stack). -/
theorem cmp_sets_flags_from_wrapped_difference
    (s s' : Interpreter) (lhs rhs : Int) (st1 st2 : Stack)
    (hop : s.instructions.instructions[s.ptr]? = some 22)
    (hp1 : s.stack.pop = some (lhs, st1))
    (hp2 : st1.pop = some (rhs, st2))
    (hstep : step s = .cont s') :
    (s'.flags.less_then = true ↔ wrap32 (lhs - rhs) < 0) ∧
    (s'.flags.larger_then = true ↔ 0 < wrap32 (lhs - rhs)) ∧
    (s'.flags.equals = true ↔ wrap32 (lhs - rhs) = 0) ∧
    s'.flags.not_zero = !s'.flags.equals ∧
    (s'.flags.less_then || s'.flags.larger_then || s'.flags.equals) = true ∧
    (s'.flags.less_then && s'.flags.larger_then) = false ∧
    (s'.flags.less_then && s'.flags.equals) = false ∧
    (s'.flags.larger_then && s'.flags.equals) = false ∧
    s'.stack = st2 ∧ s'.ptr = s.ptr + 1 ∧
    s'.frame_ptr = s.frame_ptr ∧ s'.output = s.output := by
  rw [step_eq s 22 hop] at hstep
  simp only [show instructionFromU8 22 = Instruction.Cmp from rfl] at hstep
  simp only [exec] at hstep
  rw [hp1] at hstep
  dsimp only at hstep
  rw [hp2] at hstep
  dsimp only at hstep
  rcases lt_trichotomy (wrap32 (lhs - rhs)) 0 with hd | hd | hd
  · rw [if_pos hd] at hstep
    injection hstep with h
    subst h
    simp [hd]
    omega
  · rw [if_neg (by omega), if_neg (by omega)] at hstep
    injection hstep with h
    subst h
    simp [hd]
  · rw [if_neg (by omega), if_pos hd] at hstep
    injection hstep with h
    subst h
    simp [hd]
    omega

/-- Post-`Cmp` state for the C2 witness: `Cmp` on operands `(3, 5)`. -/
def cmpPre : Interpreter := ⟨⟨[0, 0, 3, 5], 1⟩, ⟨[22]⟩, 0, 0, Flags.new, []⟩

/-- Result state of the C2 witness: `less_than` and `not_zero` set. -/
def cmpPost : Interpreter :=
  ⟨⟨[0, 0, 3, 5], 3⟩, ⟨[22]⟩, 1, 0,
   ⟨true, true, false, false, false, false, false, false, false⟩, []⟩

/-- Witness for the amended C2: `Cmp` on `(3, 5)`. -/
theorem cmp_sets_flags_from_wrapped_difference_witness :
    (cmpPost.flags.less_then = true ↔ wrap32 ((3 : Int) - 5) < 0) ∧
    (cmpPost.flags.larger_then = true ↔ 0 < wrap32 ((3 : Int) - 5)) ∧
    (cmpPost.flags.equals = true ↔ wrap32 ((3 : Int) - 5) = 0) ∧
    cmpPost.flags.not_zero = !cmpPost.flags.equals ∧
    (cmpPost.flags.less_then || cmpPost.flags.larger_then || cmpPost.flags.equals) = true ∧
    (cmpPost.flags.less_then && cmpPost.flags.larger_then) = false ∧
    (cmpPost.flags.less_then && cmpPost.flags.equals) = false ∧
    (cmpPost.flags.larger_then && cmpPost.flags.equals) = false ∧
    cmpPost.stack = ⟨[0, 0, 3, 5], 3⟩ ∧ cmpPost.ptr = cmpPre.ptr + 1 ∧
    cmpPost.frame_ptr = cmpPre.frame_ptr ∧ cmpPost.output = cmpPre.output :=
  cmp_sets_flags_from_wrapped_difference cmpPre cmpPost 3 5
    ⟨[0, 0, 3, 5], 2⟩ ⟨[0, 0, 3, 5], 3⟩ (by decide) (by decide) (by decide)
    (by decide)

/-- C3.  For every flag-register state `f`, executing `Jz` pops exactly one
value `v` from the operand stack; if `v = 0` the instruction pointer is set
to the 32-bit target operand `u`, otherwise execution falls through to the
next instruction (`s.ptr + 5`); the flag register passes through unchanged
and the branch decision depends only on the popped value. -/
theorem jz_branches_on_popped_value_only
    (s : Interpreter) (f : Flags) (u : Nat) (v : Int) (st : Stack)
    (hop : s.instructions.instructions[s.ptr]? = some 24)
    (hu : s.instructions.get_u32 (s.ptr + 1) = some u)
    (hu32 : u < 4294967296)
    (hpop : s.stack.pop = some (v, st)) :
    step { s with flags := f } =
      .cont { s with flags := f, stack := st,
                     ptr := if v = 0 then u else s.ptr + 5 } := by
  rw [step_eq { s with flags := f } 24 hop]
  simp only [show instructionFromU8 24 = Instruction.Jz from rfl]
  simp only [exec]
  rw [next_i32_eq _ u hu]
  dsimp only
  rw [hpop]
  dsimp only
  by_cases hv : v = 0
  · simp only [if_pos hv]
    rw [usize_of_i32ofU32 u hu32]
  · simp only [if_neg hv]

/-- Base state for the C3 witness: `Jz 9` with a zero on the stack. -/
def jzPre : Interpreter := ⟨⟨[0, 0], 0⟩, ⟨[24, 9, 0, 0, 0]⟩, 0, 0, Flags.new, []⟩

/-- A flag register with every flag set, to witness flag-independence. -/
def allFlags : Flags := ⟨true, true, true, true, true, true, true, true, true⟩

/-- Witness for C3: `Jz` branches on the popped `0` even though every flag
(including the comparison flags) is set. -/
theorem jz_branches_on_popped_value_only_witness :
    step { jzPre with flags := allFlags } =
      .cont { jzPre with flags := allFlags, stack := ⟨[0, 0], 1⟩,
                         ptr := if (0 : Int) = 0 then 9 else jzPre.ptr + 5 } :=
  jz_branches_on_popped_value_only jzPre allFlags 9 0 ⟨[0, 0], 1⟩
    (by decide) (by decide) (by decide) (by decide)

/-- C6, counterexample.  `PopReg` with selector byte 0 is *not* a no-op on
the stack: the source pops (and then discards) a value before dispatching on
the selector, so the stack-top index moves from 0 to 1. -/
theorem popreg_selector0_counterexample :
    step ⟨⟨[5, 7], 0⟩, ⟨[12, 0]⟩, 0, 0, Flags.new, []⟩ =
      .cont ⟨⟨[5, 7], 1⟩, ⟨[12, 0]⟩, 2, 0, Flags.new, []⟩ ∧
    (1 : Nat) ≠ 0 :=
  ⟨by decide, by decide⟩

/-- C6, amended.  Executing `PopReg` with register selector byte 0 pops one
value from the operand stack and discards it (no register is assigned): the
frame pointer, flag register and the stack's cell array are unchanged, the
instruction pointer advances by 2 (opcode plus selector byte), but the
stack-top index is incremented by the discarded pop. -/
theorem popreg_selector0_discarding_pop
    (s s' : Interpreter) (v : Int) (st : Stack)
    (hop : s.instructions.instructions[s.ptr]? = some 12)
    (hsel : s.instructions.get_u8 (s.ptr + 1) = some 0)
    (hpop : s.stack.pop = some (v, st))
    (hstep : step s = .cont s') :
    s' = { s with ptr := s.ptr + 2, stack := st } ∧
    st.stack = s.stack.stack ∧ st.ptr = (s.stack.ptr + 1) % USIZE := by
  rw [step_eq s 12 hop] at hstep
  simp only [show instructionFromU8 12 = Instruction.PopReg from rfl] at hstep
  simp only [exec] at hstep
  rw [next_u8_eq _ 0 hsel] at hstep
  dsimp only at hstep
  rw [hpop] at hstep
  dsimp only at hstep
  injection hstep with h
  obtain ⟨h1, h2, _⟩ := pop_some_inv s.stack v st hpop
  exact ⟨h.symm, h1, h2⟩

/-- Base state for the C6 witness. -/
def poprPre : Interpreter := ⟨⟨[5, 7], 0⟩, ⟨[12, 0]⟩, 0, 0, Flags.new, []⟩

/-- Witness for the amended C6. -/
theorem popreg_selector0_discarding_pop_witness :
    (⟨⟨[5, 7], 1⟩, ⟨[12, 0]⟩, 2, 0, Flags.new, []⟩ : Interpreter) =
      { poprPre with ptr := poprPre.ptr + 2, stack := ⟨[5, 7], 1⟩ } ∧
    (⟨[5, 7], 1⟩ : Stack).stack = poprPre.stack.stack ∧
    (⟨[5, 7], 1⟩ : Stack).ptr = (poprPre.stack.ptr + 1) % USIZE :=
  popreg_selector0_discarding_pop poprPre
    ⟨⟨[5, 7], 1⟩, ⟨[12, 0]⟩, 2, 0, Flags.new, []⟩ 7 ⟨[5, 7], 1⟩
    (by decide) (by decide) (by decide) (by decide)


/-- C1.  Frame balance.  Executing `Call` (opcode at `s.ptr`, 32-bit target
operand `dest`) pushes the return address (the instruction pointer already
advanced past the 5-byte `Call`) and then the current frame pointer, jumps to
the target and rebases the frame pointer; from any state `sr` about to
execute `Ret` whose stack-top index equals the post-`Call` index and whose
two frame-header slots still hold the saved values (the subroutine was
balanced), `Ret` pops the saved frame pointer first and the saved return
address second — the exact reverse of `Call`'s push order — restoring the
instruction pointer to `s.ptr + 5` (the instruction immediately after the
`Call`), the frame pointer to its pre-call value, and the stack-top index to
its pre-call value.  The `< 2^32` bounds reflect the `as u32` truncation the
source applies when registers transit through the i32 stack. -/
theorem call_ret_frame_balance
    (s sr : Interpreter) (dest : Nat)
    (hop : s.instructions.instructions[s.ptr]? = some 9)
    (hdest : s.instructions.get_u32 (s.ptr + 1) = some dest)
    (hlen : s.stack.stack.length < USIZE)
    (ht : s.stack.ptr < s.stack.stack.length)
    (ht1 : (s.stack.ptr + USIZE - 1) % USIZE < s.stack.stack.length)
    (hptr5 : s.ptr + 5 < 4294967296)
    (hfp : s.frame_ptr < 4294967296)
    (hsp : sr.stack.ptr = ((s.stack.ptr + USIZE - 1) % USIZE + USIZE - 1) % USIZE)
    (hslot1 : sr.stack.stack[(sr.stack.ptr + 1) % USIZE]? =
      some (i32ofUsize s.frame_ptr))
    (hslot2 : sr.stack.stack[((sr.stack.ptr + 1) % USIZE + 1) % USIZE]? =
      some (i32ofUsize (s.ptr + 5)))
    (hrop : sr.instructions.instructions[sr.ptr]? = some 10) :
    step s = .cont { s with
      stack := ⟨(s.stack.stack.set s.stack.ptr (i32ofUsize (s.ptr + 5))).set
                  ((s.stack.ptr + USIZE - 1) % USIZE) (i32ofUsize s.frame_ptr),
                ((s.stack.ptr + USIZE - 1) % USIZE + USIZE - 1) % USIZE⟩,
      ptr := usizeOfI32 (i32ofU32 dest),
      frame_ptr := ((s.stack.ptr + USIZE - 1) % USIZE + USIZE - 1) % USIZE } ∧
    step sr = .cont { sr with
      stack := ⟨sr.stack.stack, s.stack.ptr⟩,
      ptr := s.ptr + 5,
      frame_ptr := s.frame_ptr } := by
  constructor
  · rw [step_eq s 9 hop]
    simp only [show instructionFromU8 9 = Instruction.Call from rfl]
    simp only [exec]
    rw [next_i32_eq _ dest hdest]
    dsimp only
    have hpush1 : s.stack.push (i32ofUsize (s.ptr + 1 + 4)) =
        some ⟨s.stack.stack.set s.stack.ptr (i32ofUsize (s.ptr + 5)),
              (s.stack.ptr + USIZE - 1) % USIZE⟩ := by
      unfold Stack.push
      rw [if_neg (by omega)]
    rw [hpush1]
    dsimp only
    have hpush2 : Stack.push
        ⟨s.stack.stack.set s.stack.ptr (i32ofUsize (s.ptr + 5)),
         (s.stack.ptr + USIZE - 1) % USIZE⟩ (i32ofUsize s.frame_ptr) =
        some ⟨(s.stack.stack.set s.stack.ptr (i32ofUsize (s.ptr + 5))).set
                ((s.stack.ptr + USIZE - 1) % USIZE) (i32ofUsize s.frame_ptr),
              ((s.stack.ptr + USIZE - 1) % USIZE + USIZE - 1) % USIZE⟩ := by
      unfold Stack.push
      rw [if_neg (by simp only [List.length_set]; omega)]
    rw [hpush2]
  · rw [step_eq sr 10 hrop]
    simp only [show instructionFromU8 10 = Instruction.Ret from rfl]
    simp only [exec]
    have hpop1 : sr.stack.pop = some (i32ofUsize s.frame_ptr,
        ⟨sr.stack.stack, (sr.stack.ptr + 1) % USIZE⟩) := by
      unfold Stack.pop
      rw [hslot1]
    rw [hpop1]
    dsimp only
    have hpop2 : Stack.pop ⟨sr.stack.stack, (sr.stack.ptr + 1) % USIZE⟩ =
        some (i32ofUsize (s.ptr + 5),
          ⟨sr.stack.stack, ((sr.stack.ptr + 1) % USIZE + 1) % USIZE⟩) := by
      unfold Stack.pop
      rw [hslot2]
    rw [hpop2]
    dsimp only
    rw [usize_bits_roundtrip s.frame_ptr hfp,
        usize_bits_roundtrip (s.ptr + 5) hptr5]
    have harith : ((sr.stack.ptr + 1) % USIZE + 1) % USIZE = s.stack.ptr := by
      rw [hsp]
      simp only [USIZE] at *
      omega
    rw [harith]

/-- Base state for the C1 witness: `Call 5` at offset 0, `Ret` at offset 5. -/
def callPre : Interpreter :=
  ⟨⟨[0, 0, 0], 2⟩, ⟨[9, 5, 0, 0, 0, 10]⟩, 0, 0, Flags.new, []⟩

/-- The state after the C1 witness's `Call`: the subroutine entry. -/
def retPre : Interpreter :=
  ⟨⟨[0, 0, 5], 0⟩, ⟨[9, 5, 0, 0, 0, 10]⟩, 5, 0, Flags.new, []⟩

/-- Witness for C1. -/
theorem call_ret_frame_balance_witness :
    step callPre = .cont { callPre with
      stack := ⟨(callPre.stack.stack.set callPre.stack.ptr
                   (i32ofUsize (callPre.ptr + 5))).set
                  ((callPre.stack.ptr + USIZE - 1) % USIZE)
                  (i32ofUsize callPre.frame_ptr),
                ((callPre.stack.ptr + USIZE - 1) % USIZE + USIZE - 1) % USIZE⟩,
      ptr := usizeOfI32 (i32ofU32 5),
      frame_ptr := ((callPre.stack.ptr + USIZE - 1) % USIZE + USIZE - 1) % USIZE } ∧
    step retPre = .cont { retPre with
      stack := ⟨retPre.stack.stack, callPre.stack.ptr⟩,
      ptr := callPre.ptr + 5,
      frame_ptr := callPre.frame_ptr } :=
  call_ret_frame_balance callPre retPre 5 (by decide) (by decide) (by decide)
    (by decide) (by decide) (by decide) (by decide) (by decide) (by decide)
    (by decide) (by decide)

/-- C7.  Lenient decode versus the unimplemented opcode: every fetched byte
outside 0–31 decodes to `Nop` and executes with no effect beyond advancing
the instruction pointer past the opcode, whereas the decoded opcode `Jnz`
(byte 25), which the execution switch does not implement, falls into the
catch-all arm and fatally terminates the run. -/
theorem lenient_decode_vs_unimplemented_jnz :
    (∀ b : Nat, 32 ≤ b → instructionFromU8 b = .Nop) ∧
    (∀ (s s' : Interpreter) (b : Nat),
        s.instructions.instructions[s.ptr]? = some b → 32 ≤ b →
        step s = .cont s' → s' = { s with ptr := s.ptr + 1 }) ∧
    (∀ s : Interpreter, s.instructions.instructions[s.ptr]? = some 25 →
        step s = .fatal) := by
  have h1 : ∀ b : Nat, 32 ≤ b → instructionFromU8 b = .Nop := by
    intro b hb
    obtain ⟨k, rfl⟩ : ∃ k, b = k + 32 := ⟨b - 32, by omega⟩
    rfl
  refine ⟨h1, ?_, ?_⟩
  · intro s s' b hop hb hstep
    rw [step_eq s b hop, h1 b hb] at hstep
    simp only [exec] at hstep
    injection hstep with h
    exact h.symm
  · intro s hop
    rw [step_eq s 25 hop]
    rfl

/-- Base state for the C7 witness's lenient-decode half: opcode byte 200. -/
def nopBytePre : Interpreter := ⟨⟨[0], 0⟩, ⟨[200]⟩, 0, 0, Flags.new, []⟩

/-- Base state for the C7 witness's `Jnz` half: opcode byte 25. -/
def jnzPre : Interpreter := ⟨⟨[0], 0⟩, ⟨[25]⟩, 0, 0, Flags.new, []⟩

/-- Witness for C7: byte 200 decodes to `Nop` and executes as a pure
instruction-pointer increment; `Jnz` aborts. -/
theorem lenient_decode_vs_unimplemented_jnz_witness :
    instructionFromU8 200 = Instruction.Nop ∧
    ({ nopBytePre with ptr := 1 } : Interpreter) =
      { nopBytePre with ptr := nopBytePre.ptr + 1 } ∧
    step jnzPre = .fatal := by
  obtain ⟨h1, h2, h3⟩ := lenient_decode_vs_unimplemented_jnz
  exact ⟨h1 200 (by norm_num),
         h2 nopBytePre { nopBytePre with ptr := 1 } 200 (by decide)
           (by norm_num) (by decide),
         h3 jnzPre (by decide)⟩

/-- C9, counterexample.  The instruction-pointer invariant fails on the code:
the one-instruction program `[Jmp 2]` has instruction starts `{0, 5}`, yet
executing its `Jmp` leaves the instruction pointer at offset 2 — strictly
inside the `Jmp`'s own 4-byte operand field, neither an instruction start nor
at/past the end of the buffer. -/
theorem jmp_inside_operand_field_counterexample :
    step (Interpreter.new [23, 2, 0, 0, 0]) =
      .cont { Interpreter.new [23, 2, 0, 0, 0] with ptr := 2 } ∧
    starts [23, 2, 0, 0, 0] 0 = [0, 5] ∧
    (2 : Nat) ∉ starts [23, 2, 0, 0, 0] 0 ∧
    (2 : Nat) < ([23, 2, 0, 0, 0] : List Nat).length := by
  have hs : starts [23, 2, 0, 0, 0] 0 = [0, 5] := by
    rw [starts]
    norm_num [instructionFromU8, opWidth]
    rw [starts]
    norm_num
  refine ⟨by decide, hs, by rw [hs]; decide, by norm_num⟩

/-- C9, amended.  The boundary invariant holds exactly for the
non-control-transfer operations: any executed instruction other than `Jmp`,
`Jz`, `Call`, `Ret` and `PopReg` advances the instruction pointer from its
current position to the position one opcode-plus-operands later, so from an
instruction start of the sequential parse it reaches the next instruction
start; the control-transfer operations take arbitrary 32-bit targets or
popped values and can place the instruction pointer anywhere, including
inside an operand field. -/
theorem noncontrol_step_preserves_instruction_starts
    (s s' : Interpreter) (b : Nat)
    (hop : s.instructions.instructions[s.ptr]? = some b)
    (hni : instructionFromU8 b ≠ .Call ∧ instructionFromU8 b ≠ .Ret ∧
           instructionFromU8 b ≠ .PopReg ∧ instructionFromU8 b ≠ .Jmp ∧
           instructionFromU8 b ≠ .Jz)
    (hstep : step s = .cont s') :
    s'.ptr = s.ptr + 1 + opWidth (instructionFromU8 b) ∧
    (s.ptr ∈ starts s.instructions.instructions 0 →
      s'.ptr ∈ starts s.instructions.instructions 0) := by
  rw [step_eq s b hop] at hstep
  have hlt : s.ptr < s.instructions.instructions.length := by
    by_contra hc
    rw [List.getElem?_eq_none (by omega)] at hop
    cases hop
  have hgd : s.instructions.instructions.getD s.ptr 0 = b := by
    rw [List.getD_eq_getElem?_getD, hop]
    rfl
  have hmain : s'.ptr = s.ptr + 1 + opWidth (instructionFromU8 b) :=
    exec_noncontrol_ptr (instructionFromU8 b) _ s' hni hstep
  refine ⟨hmain, fun hmem => ?_⟩
  have hnext := starts_next_mem s.instructions.instructions 0 s.ptr hmem hlt
  rw [hgd] at hnext
  rw [hmain]
  exact hnext

/-- Base state for the C9 witness: `Push 7` at offset 0. -/
def pushPre : Interpreter := ⟨⟨[0], 0⟩, ⟨[6, 7, 0, 0, 0]⟩, 0, 0, Flags.new, []⟩

/-- Witness for the amended C9: executing `Push 7` advances the instruction
pointer from start 0 to start 5. -/
theorem noncontrol_step_preserves_instruction_starts_witness :
    ({ pushPre with ptr := 5, stack := ⟨[7], USIZE - 1⟩ } : Interpreter).ptr =
      pushPre.ptr + 1 + opWidth (instructionFromU8 6) ∧
    (pushPre.ptr ∈ starts pushPre.instructions.instructions 0 →
      ({ pushPre with ptr := 5, stack := ⟨[7], USIZE - 1⟩ } : Interpreter).ptr ∈
        starts pushPre.instructions.instructions 0) :=
  noncontrol_step_preserves_instruction_starts pushPre
    { pushPre with ptr := 5, stack := ⟨[7], USIZE - 1⟩ } 6
    (by decide) (by decide) (by decide)

/-- C10.  The interpreter's `PushReg`/`PopReg` consume exactly one operand
byte — the register selector — so execution continues at `s.ptr + 2`, while
the disassembler decodes a 4-byte signed operand for these opcodes and
continues at `s.ptr + 5`; the two therefore parse any buffer containing
`PushReg` or `PopReg` at different instruction boundaries.  (The hypothesis
excluding selector 1 for `PopReg` only sets aside the case where the popped
value is assigned *into* the instruction pointer, which overwrites the
advanced position.) -/
theorem pushreg_popreg_width_mismatch
    (s s' : Interpreter) (b sel : Nat)
    (hop : s.instructions.instructions[s.ptr]? = some b)
    (hb : instructionFromU8 b = .PushReg ∨ instructionFromU8 b = .PopReg)
    (hsel : s.instructions.get_u8 (s.ptr + 1) = some sel)
    (hnoip : instructionFromU8 b = .PopReg → sel ≠ 1)
    (hstep : step s = .cont s') :
    s'.ptr = s.ptr + 2 ∧
    disasmNext s.instructions.instructions s.ptr = s.ptr + 5 ∧
    s.ptr + 2 ≠ s.ptr + 5 := by
  have hdis : disasmNext s.instructions.instructions s.ptr = s.ptr + 5 := by
    unfold disasmNext
    rw [List.getD_eq_getElem?_getD, hop]
    rcases hb with hb | hb <;> rw [show (some b).getD 0 = b from rfl, hb] <;> rfl
  refine ⟨?_, hdis, by omega⟩
  rw [step_eq s b hop] at hstep
  rcases hb with hb | hb
  · rw [hb] at hstep
    simp only [exec] at hstep
    rw [next_u8_eq _ sel hsel] at hstep
    dsimp only at hstep
    rcases sel with _ | _ | _ | _ | sel
    · injection hstep with h
      rw [← h]
    · cases hps : ({ s with ptr := s.ptr + 1 + 1 } : Interpreter).stack.push
          (i32ofUsize ({ s with ptr := s.ptr + 1 + 1 } : Interpreter).ptr) with
      | none => rw [hps] at hstep; exact (StepResult.noConfusion hstep)
      | some st => rw [hps] at hstep; injection hstep with h; rw [← h]
    · cases hps : ({ s with ptr := s.ptr + 1 + 1 } : Interpreter).stack.push
          (i32ofUsize ({ s with ptr := s.ptr + 1 + 1 } : Interpreter).stack.ptr) with
      | none => rw [hps] at hstep; exact (StepResult.noConfusion hstep)
      | some st => rw [hps] at hstep; injection hstep with h; rw [← h]
    · cases hps : ({ s with ptr := s.ptr + 1 + 1 } : Interpreter).stack.push
          (i32ofUsize ({ s with ptr := s.ptr + 1 + 1 } : Interpreter).frame_ptr) with
      | none => rw [hps] at hstep; exact (StepResult.noConfusion hstep)
      | some st => rw [hps] at hstep; injection hstep with h; rw [← h]
    · exact (StepResult.noConfusion hstep)
  · rw [hb] at hstep
    simp only [exec] at hstep
    rw [next_u8_eq _ sel hsel] at hstep
    dsimp only at hstep
    cases hpp : ({ s with ptr := s.ptr + 1 + 1 } : Interpreter).stack.pop with
    | none => rw [hpp] at hstep; exact (StepResult.noConfusion hstep)
    | some pr =>
      obtain ⟨val, st⟩ := pr
      rw [hpp] at hstep
      dsimp only at hstep
      rcases sel with _ | _ | _ | _ | sel
      · injection hstep with h
        rw [← h]
      · exact absurd rfl (hnoip hb)
      · injection hstep with h
        rw [← h]
      · injection hstep with h
        rw [← h]
      · exact (StepResult.noConfusion hstep)

/-- Base state for the C10 witness: `PushReg` with selector 0. -/
def pushrPre : Interpreter := ⟨⟨[0], 0⟩, ⟨[11, 0]⟩, 0, 0, Flags.new, []⟩

/-- Witness for C10. -/
theorem pushreg_popreg_width_mismatch_witness :
    ({ pushrPre with ptr := 2 } : Interpreter).ptr = pushrPre.ptr + 2 ∧
    disasmNext pushrPre.instructions.instructions pushrPre.ptr =
      pushrPre.ptr + 5 ∧
    pushrPre.ptr + 2 ≠ pushrPre.ptr + 5 :=
  pushreg_popreg_width_mismatch pushrPre { pushrPre with ptr := 2 } 11 0
    (by decide) (Or.inl rfl) (by decide) (by decide) (by decide)
